import Mathlib

/-!
Shallow embedding of `src/data.rs` of the avail-light data-availability layer.

The file embeds, faithfully to the Rust source:
* the column reconstructor `reconstruct_column` with its helper contract checks
  (`check_cells`, `find_row_by_index`), where every Rust panic
  (`assert!`, `assert_eq!`, `expect`, `unwrap`) is modelled as an
  `Except.error` carrying a panic-class failure value, and the Rust
  `Err(String)` result of the interpolation collaborator is a distinct
  error-class value;
* the content publisher `push_cell` / `push_col` / `push_row` / `push_matrix`,
  with the external `ipfs_embed` store modelled at its boundary as a
  per-identifier success oracle and an explicit state (pins, inserted blocks),
  and content addressing modelled by the ideal hash (the identifier of a block
  is its encoded content itself: a deterministic injective function of bytes);
* the matrix builder `construct_cell` / `construct_colwise` /
  `construct_rowwise` / `construct_matrix`, with the rpc fetch collaborator
  `get_kate_query_proof_by_cell` as an explicit function parameter and the
  sequence of fetch calls recorded as a trace.

Machine integers: `row_count` is a Rust `usize` on a 64-bit target, built in
release profile, so the `row_count - 1` inside the power-of-two bit test uses
wrapping subtraction; row/column indices are `u16` and the `idx as u16` cast
wraps modulo 2^16. These are made explicit with `% 2^64` / `% 2^16`.
-/

/-- The BLS12-381 scalar field modulus `r`, the modulus of
`dusk_plonk::bls12_381::BlsScalar`. -/
def rBLS : Nat :=
  52435875175126190479447740508185965837690552500527637822603658699938581184513

/-- One matrix cell as consumed by `reconstruct_column` (`crate::types::Cell`
as used by `data.rs`): a (row, column) coordinate (`u16` values) together with
its proof payload bytes, whose first 32 bytes are the canonical little-endian
field-element encoding. -/
structure Cell where
  row : Nat
  col : Nat
  proof : List Nat
deriving DecidableEq

/-- Value of a little-endian byte sequence, as `BlsScalar::from_bytes` reads
its 32-byte input. -/
def leBytesToNat : List Nat → Nat
  | [] => 0
  | b :: bs => b + 256 * leBytesToNat bs

/-- `BlsScalar::from_bytes`: canonical little-endian decoding, `none` when the
encoded value is not below the field modulus (the `CtOption` none case).
The length-32 requirement is checked separately by the caller's `try_into`. -/
def blsFromBytes (bs : List Nat) : Option Nat :=
  if leBytesToNat bs < rBLS then some (leBytesToNat bs) else none

/-- Failure outcomes of `reconstruct_column`.  The four `assert` constructors
and the two `panic` constructors are Rust panics (process aborts): the two
`assert!` calls at data.rs:172-173, the `assert!`/`assert_eq!` pair inside
`check_cells`, the `expect` on `try_into` and the `unwrap` on `from_bytes`
inside `find_row_by_index`.  `reconErr` is the ordinary `Err(String)` value
propagated from the interpolation collaborator `reconstruct_poly`. -/
inductive RecFail where
  | assertPow2
  | assertCount
  | assertEmpty
  | assertColMismatch
  | panicProofLen
  | panicNonCanonical
  | reconErr (msg : String)
deriving DecidableEq

deriving instance DecidableEq for Except

/-- Panic-class failures: every `RecFail` except the propagated `Err(String)`. -/
def RecFail.isPanic : RecFail → Bool
  | .reconErr _ => false
  | _ => true

/-- The two contract-check aborts raised before any payload is decoded or any
interpolation is attempted. -/
def RecFail.isContractAssert : RecFail → Bool
  | .assertPow2 => true
  | .assertCount => true
  | .assertEmpty => true
  | .assertColMismatch => true
  | _ => false

/-- Malformed-sample panics: the `expect`/`unwrap` aborts of
`find_row_by_index` on a payload that is not a canonical 32-byte field
element. -/
def RecFail.isMalformedPanic : RecFail → Bool
  | .panicProofLen => true
  | .panicNonCanonical => true
  | _ => false

/-- `check_cells` (data.rs:145-151): `assert!(cells.len() > 0)` then
`assert_eq!(col, cell.col)` for every cell against the first cell's column.
`none` means both asserts pass. -/
def check_cells (cells : List Cell) : Option RecFail :=
  match cells with
  | [] => some .assertEmpty
  | c0 :: _ =>
    if cells.all (fun cell => cell.col == c0.col) then none
    else some .assertColMismatch

/-- `find_row_by_index` (data.rs:155-169): first cell whose `row` equals
`idx as u16`; its payload goes through `try_into` (length-32 `expect`) and
`BlsScalar::from_bytes` (`unwrap` of the canonicity check).  An `error`
result is the corresponding Rust panic. -/
def find_row_by_index (idx : Nat) : List Cell → Except RecFail (Option Nat)
  | [] => .ok none
  | cell :: rest =>
    if cell.row = idx % 65536 then
      if cell.proof.length = 32 then
        match blsFromBytes cell.proof with
        | some v => .ok (some v)
        | none => .error .panicNonCanonical
      else .error .panicProofLen
    else find_row_by_index idx rest

/-- 2^64, the size of `usize` on the 64-bit target. -/
def USIZE : Nat := 18446744073709551616

/-- Wrapping `usize` subtraction (release-profile arithmetic on the 64-bit
target). -/
def wrapSub64 (a b : Nat) : Nat := (a % USIZE + (USIZE - b % USIZE)) % USIZE

/-- The power-of-two contract check of data.rs:172:
`row_count & (row_count - 1) == 0` with wrapping subtraction. -/
def powTwoCheck (row_count : Nat) : Bool :=
  (row_count &&& wrapSub64 row_count 1) == 0

/-- The cell-count contract check of data.rs:173:
`cells.len() >= row_count / 2 && cells.len() <= row_count`. -/
def countCheck (row_count len : Nat) : Bool :=
  decide (row_count / 2 ≤ len) && decide (len ≤ row_count)

/-- The subset-building loop of data.rs:181-183 over the given row indices:
`find_row_by_index` per index, propagating its panics. -/
def buildSubset (cells : List Cell) : List Nat → Except RecFail (List (Option Nat))
  | [] => .ok []
  | i :: is =>
    match find_row_by_index i cells with
    | .error e => .error e
    | .ok v =>
      match buildSubset cells is with
      | .error e => .error e
      | .ok rest => .ok (v :: rest)

/-- Modular exponentiation worker, structurally recursive on a fuel bound on
the number of exponent halvings. -/
def powModAux : Nat → Nat → Nat → Nat → Nat
  | 0, _, _, _ => 1
  | fuel + 1, b, e, m =>
    if e = 0 then 1 % m
    else
      let h := powModAux fuel (b * b % m) (e / 2) m
      if e % 2 = 1 then b * h % m else h

/-- `b ^ e % m` by binary exponentiation. -/
def powMod (b e m : Nat) : Nat := powModAux (e + 1) b e m

/-- Field addition modulo `rBLS`. -/
def fadd (a b : Nat) : Nat := (a + b) % rBLS

/-- Field multiplication modulo `rBLS`. -/
def fmul (a b : Nat) : Nat := a * b % rBLS

/-- Field negation modulo `rBLS`. -/
def fneg (a : Nat) : Nat := (rBLS - a % rBLS) % rBLS

/-- Field subtraction modulo `rBLS`. -/
def fsub (a b : Nat) : Nat := (a + (rBLS - b % rBLS)) % rBLS

/-- Field inverse modulo the prime `rBLS`, by Fermat's little theorem. -/
def finv (a : Nat) : Nat := powMod a (rBLS - 2) rBLS

/-- Coefficient-wise polynomial addition (little-endian coefficient lists
over the scalar field). -/
def polyAdd : List Nat → List Nat → List Nat
  | [], q => q
  | p, [] => p
  | a :: p, b :: q => fadd a b :: polyAdd p q

/-- Scale a polynomial by a field constant. -/
def polyScale (c : Nat) (p : List Nat) : List Nat := p.map (fmul c)

/-- Multiply a polynomial by the linear factor `X - a`. -/
def polyMulLin (a : Nat) (p : List Nat) : List Nat :=
  polyAdd (0 :: p) (polyScale (fneg a) p)

/-- Horner evaluation of a coefficient list at a field point. -/
def polyEval (p : List Nat) (x : Nat) : Nat :=
  p.foldr (fun c acc => (c + x * acc) % rBLS) 0

/-- Product of the linear factors `X - a` over the given points. -/
def nodePoly (xs : List Nat) : List Nat :=
  xs.foldl (fun p a => polyMulLin a p) [1]

/-- Lagrange interpolation through the given (point, value) pairs with
pairwise distinct points: the unique polynomial of degree below the number
of points passing through all of them. -/
def lagrangeInterp (pts : List (Nat × Nat)) : List Nat :=
  pts.foldl (fun acc pt =>
    let others := (pts.filter (fun q => q.1 != pt.1)).map (fun q => q.1)
    let num := nodePoly others
    let den := others.foldl (fun d xm => fmul d (fsub pt.1 xm)) 1
    polyAdd acc (polyScale (fmul pt.2 (finv den)) num)) []

/-- Modelled from the spec: the evaluation domain of size `n`
(`dusk_plonk::fft::EvaluationDomain::new(row_count)`, an external
collaborator): the powers of a primitive `n`-th root of unity of the BLS
scalar field, derived from the multiplicative generator 7 of that field. -/
def evalDomain (n : Nat) : List Nat :=
  (List.range n).map (fun i => powMod (powMod 7 ((rBLS - 1) / n) rBLS) i rBLS)

/-- Modelled from the spec: `reconstruct_poly` (`crate::recovery`, a source
file of this repository that is not under `src/`), the interpolation
collaborator of §4.3/§6 of the spec: degree-bounded polynomial recovery over
the evaluation domain.  It takes the evaluation domain and the gapped
sequence produced by `reconstruct_column`, errors when fewer than half a
domain's worth of samples are known (recovery impossible), and otherwise
returns the evaluations over the whole domain of the unique polynomial of
degree below the number of known samples through them — for erasure-coded
data of degree below half the domain size this is exact recovery, identical
for every valid subset by polynomial uniqueness. -/
def reconstruct_poly (domain : List Nat) (subset : List (Option Nat)) :
    Except RecFail (List Nat) :=
  let pts := (domain.zip subset).filterMap
    (fun q => match q.2 with | some v => some (q.1, v) | none => none)
  if pts.length < domain.length / 2 then .error (.reconErr "not enough samples")
  else .ok (domain.map (polyEval (lagrangeInterp pts)))

/-- `reconstruct_column` (data.rs:141-186).  Rust panics are `Except.error`
with a panic-class `RecFail`; the propagated `Err(String)` of
`reconstruct_poly` is `.reconErr`.  `usize` is 64-bit with release-profile
wrapping arithmetic. -/
def reconstruct_column (row_count : Nat) (cells : List Cell) :
    Except RecFail (List Nat) :=
  if powTwoCheck row_count then
    if countCheck row_count cells.length then
      match check_cells cells with
      | some e => .error e
      | none =>
        match buildSubset cells (List.range row_count) with
        | .error e => .error e
        | .ok subset => reconstruct_poly (evalDomain row_count) subset
    else .error .assertCount
  else .error .assertPow2

/-- IPLD values (`libipld::Ipld`), restricted to the constructors `data.rs`
builds.  Under the ideal-hash model a link carries the linked block's
content directly as its identifier. -/
inductive Ipld where
  | null
  | bytes (bs : List Nat)
  | integer (i : Int)
  | link (cid : Ipld)
  | list (xs : List Ipld)
  | stringMap (entries : List (String × Ipld))

/-- A content identifier.  Content addressing is a deterministic injective
function of (codec, bytes); the ideal-hash model realises it as the encoded
content itself. -/
abbrev Cid := Ipld

/-- A content-addressed block (`libipld::Block`, re-exported as
`crate::types::IpldBlock`): its DagCbor-encoded data. -/
structure IpldBlock where
  data : Ipld

/-- `Block::cid()`: the Blake3 content identifier — under the ideal-hash
model, the content itself. -/
def IpldBlock.cid (b : IpldBlock) : Cid := b.data

/-- `IpldBlock::encode(DagCbor, Blake3_256, data)`: deterministic encoding
of an IPLD value into a block (the `unwrap` never fails on the values
`data.rs` builds). -/
def IpldBlock.encode (data : Ipld) : IpldBlock := ⟨data⟩

/-- `crate::types::BaseCell`: an encoded leaf block. -/
abbrev BaseCell := IpldBlock

/-- `crate::types::L0Col`: one column's leaf blocks in row order. -/
structure L0Col where
  base_cells : List BaseCell

/-- `crate::types::L1Row`: the matrix's columns in column order. -/
structure L1Row where
  l0_cols : List L0Col

/-- `crate::types::DataMatrix`: the pre-publication matrix with its block
number (`i128`; always the in-range image of a `u64`). -/
structure DataMatrix where
  l1_row : L1Row
  block_num : Int

/-- The `ipfs_embed` store boundary (spec §6: `insert`/`pin` return ok or
err): a deterministic per-identifier failure oracle fixing, for one run,
which `temp_pin` and which `insert` calls fail. -/
structure StoreOracle where
  pinFail : Cid → Bool
  insertFail : Cid → Bool

/-- Observable state of the store: temp-pinned identifiers and inserted
block contents, each in operation order. -/
structure IpfsState where
  pins : List Cid
  store : List Ipld

/-- One pin-then-insert step, the common body of `push_cell`, `push_col` and
`push_row`: `ipfs.temp_pin(pin, blk.cid())?; ipfs.insert(&blk)?; Ok(*blk.cid())`.
A failed step keeps the side effects already performed. -/
def pinAndInsert (env : StoreOracle) (blk : IpldBlock) (st : IpfsState) :
    Option Cid × IpfsState :=
  if env.pinFail blk.cid then (none, st)
  else
    let st1 : IpfsState := ⟨st.pins ++ [blk.cid], st.store⟩
    if env.insertFail blk.cid then (none, st1)
    else (some blk.cid, ⟨st1.pins, st1.store ++ [blk.data]⟩)

/-- `push_cell` (data.rs:52-61): pin the leaf, insert it, return its
identifier; `none` is the propagated `Err` of either store call. -/
def push_cell (env : StoreOracle) (cell : BaseCell) (st : IpfsState) :
    Option Cid × IpfsState :=
  pinAndInsert env cell st

/-- The cell loop of `push_col` (data.rs:66-70): attempt `push_cell` per
leaf; a failed cell contributes nothing — `if let Ok(cid) = ... { push }`. -/
def pushCells (env : StoreOracle) : List BaseCell → IpfsState → List Ipld × IpfsState
  | [], st => ([], st)
  | cell :: rest, st =>
    match push_cell env cell st with
    | (some cid, st1) =>
      let (links, st2) := pushCells env rest st1
      (Ipld.link cid :: links, st2)
    | (none, st1) => pushCells env rest st1

/-- `push_col` (data.rs:63-79): collect surviving cell links, encode them as
a list block, pin and insert it, return its identifier. -/
def push_col (env : StoreOracle) (col : L0Col) (st : IpfsState) :
    Option Cid × IpfsState :=
  let r := pushCells env col.base_cells st
  pinAndInsert env (IpldBlock.encode (Ipld.list r.1)) r.2

/-- The column loop of `push_row` (data.rs:90-94): attempt `push_col` per
column; a failed column contributes nothing. -/
def pushCols (env : StoreOracle) : List L0Col → IpfsState → List Ipld × IpfsState
  | [], st => ([], st)
  | col :: rest, st =>
    match push_col env col st with
    | (some cid, st1) =>
      let (links, st2) := pushCols env rest st1
      (Ipld.link cid :: links, st2)
    | (none, st1) => pushCols env rest st1

/-- The lexicographic order on key character sequences by which
`BTreeMap<String, _>` sorts its keys. -/
def keyLt : List Char → List Char → Bool
  | [], [] => false
  | [], _ :: _ => true
  | _ :: _, [] => false
  | a :: as, b :: bs =>
    if a.val < b.val then true
    else if b.val < a.val then false
    else keyLt as bs

/-- `BTreeMap::insert`: ordered-map insertion on a key-sorted association
list. -/
def btreeInsert (k : String) (v : Ipld) :
    List (String × Ipld) → List (String × Ipld)
  | [] => [(k, v)]
  | (k0, v0) :: rest =>
    if keyLt k.data k0.data then (k, v) :: (k0, v0) :: rest
    else if k.data = k0.data then (k, v) :: rest
    else (k0, v0) :: btreeInsert k v rest

/-- The root map of data.rs:96-106: insert `"columns"`, `"block"`, `"prev"`
into a fresh `BTreeMap` (which stores them in key order). -/
def rootMap (col_cids : List Ipld) (block_num : Int) (latest_cid : Option Cid) :
    List (String × Ipld) :=
  btreeInsert "prev"
    (match latest_cid with
     | some cid => Ipld.link cid
     | none => Ipld.null)
    (btreeInsert "block" (Ipld.integer block_num)
      (btreeInsert "columns" (Ipld.list col_cids) []))

/-- `push_row` (data.rs:81-115): push the columns, assemble the root map,
encode it, pin and insert it, return the new root identifier. -/
def push_row (env : StoreOracle) (row : L1Row) (block_num : Int)
    (latest_cid : Option Cid) (st : IpfsState) : Option Cid × IpfsState :=
  let r := pushCols env row.l0_cols st
  pinAndInsert env (IpldBlock.encode (Ipld.stringMap (rootMap r.1 block_num latest_cid))) r.2

/-- `push_matrix` (data.rs:117-131): thin pass-through to `push_row`. -/
def push_matrix (env : StoreOracle) (dm : DataMatrix) (latest_cid : Option Cid)
    (st : IpfsState) : Option Cid × IpfsState :=
  push_row env dm.l1_row dm.block_num latest_cid st

/-- Whether both store calls of one pin-then-insert step succeed for a given
block. -/
def blkOk (env : StoreOracle) (blk : IpldBlock) : Bool :=
  !env.pinFail blk.cid && !env.insertFail blk.cid

/-- Pure value of one pin-then-insert step. -/
def blkRes (env : StoreOracle) (blk : IpldBlock) : Option Cid :=
  if blkOk env blk then some blk.cid else none

/-- Pins appended by one pin-then-insert step. -/
def blkPins (env : StoreOracle) (blk : IpldBlock) : List Cid :=
  if env.pinFail blk.cid then [] else [blk.cid]

/-- Store insertions appended by one pin-then-insert step. -/
def blkStore (env : StoreOracle) (blk : IpldBlock) : List Ipld :=
  if blkOk env blk then [blk.data] else []

/-- Whether an individual cell's `push_cell` succeeds. -/
def cellOk (env : StoreOracle) (cell : BaseCell) : Bool := blkOk env cell

/-- The links a column block ends up holding: the surviving cells'
identifiers, in original row order, with no placeholder for a dropped
cell. -/
def colLinks (env : StoreOracle) (col : L0Col) : List Ipld :=
  (col.base_cells.filter (cellOk env)).map (fun c => Ipld.link c.cid)

/-- The content (and thus ideal-hash identifier) of a column block. -/
def colContent (env : StoreOracle) (col : L0Col) : Ipld :=
  Ipld.list (colLinks env col)

/-- Whether a column's `push_col` succeeds (its own pin and insert). -/
def colOk (env : StoreOracle) (col : L0Col) : Bool :=
  blkOk env ⟨colContent env col⟩

/-- The column links the root block ends up holding: the surviving columns'
identifiers, in original column order. -/
def rowLinks (env : StoreOracle) (row : L1Row) : List Ipld :=
  (row.l0_cols.filter (colOk env)).map (fun col => Ipld.link (colContent env col))

/-- The content (and thus ideal-hash identifier) of the matrix root block. -/
def rootContent (env : StoreOracle) (row : L1Row) (block_num : Int)
    (latest_cid : Option Cid) : Ipld :=
  Ipld.stringMap (rootMap (rowLinks env row) block_num latest_cid)

/-- Whether the root block's own pin and insert succeed. -/
def rootOk (env : StoreOracle) (row : L1Row) (block_num : Int)
    (latest_cid : Option Cid) : Bool :=
  blkOk env ⟨rootContent env row block_num latest_cid⟩

/-- Pins appended by a column publish. -/
def colNewPins (env : StoreOracle) (col : L0Col) : List Cid :=
  col.base_cells.flatMap (blkPins env) ++ blkPins env ⟨colContent env col⟩

/-- Store insertions appended by a column publish. -/
def colNewStore (env : StoreOracle) (col : L0Col) : List Ipld :=
  col.base_cells.flatMap (blkStore env) ++ blkStore env ⟨colContent env col⟩

/-- Pins appended by a whole-matrix publish. -/
def matrixNewPins (env : StoreOracle) (dm : DataMatrix) (latest_cid : Option Cid) :
    List Cid :=
  dm.l1_row.l0_cols.flatMap (colNewPins env) ++
    blkPins env ⟨rootContent env dm.l1_row dm.block_num latest_cid⟩

/-- Store insertions appended by a whole-matrix publish: a pure function of
the matrix content, the previous-root argument and the success oracle —
independent of the pre-existing store state. -/
def matrixNewStore (env : StoreOracle) (dm : DataMatrix) (latest_cid : Option Cid) :
    List Ipld :=
  dm.l1_row.l0_cols.flatMap (colNewStore env) ++
    blkStore env ⟨rootContent env dm.l1_row dm.block_num latest_cid⟩

/-- A fetch-call coordinate `(block, row, col)` of the cell-retrieval
collaborator. -/
abbrev Coord := Nat × Nat × Nat

/-- `construct_cell` (data.rs:18-21), with the rpc collaborator
`get_kate_query_proof_by_cell` (spec §6) as a function parameter: wraps the
fetched payload bytes as an encoded leaf block and records the fetch call. -/
def construct_cell (fetch : Nat → Nat → Nat → List Nat) (block row col : Nat) :
    BaseCell × List Coord :=
  (IpldBlock.encode (Ipld.bytes (fetch block row col)), [(block, row, col)])

/-- `construct_colwise` (data.rs:23-33): `for row in 0..row_count`,
`construct_cell` per row. -/
def construct_colwise (fetch : Nat → Nat → Nat → List Nat)
    (block row_count col : Nat) : L0Col × List Coord :=
  (⟨(List.range row_count).map (fun row => (construct_cell fetch block row col).1)⟩,
   (List.range row_count).flatMap (fun row => (construct_cell fetch block row col).2))

/-- `construct_rowwise` (data.rs:35-43): `for col in 0..col_count`,
`construct_colwise` per column. -/
def construct_rowwise (fetch : Nat → Nat → Nat → List Nat)
    (block row_count col_count : Nat) : L1Row × List Coord :=
  (⟨(List.range col_count).map
      (fun col => (construct_colwise fetch block row_count col).1)⟩,
   (List.range col_count).flatMap
      (fun col => (construct_colwise fetch block row_count col).2))

/-- `construct_matrix` (data.rs:45-50): the assembled matrix with
`block as i128`, together with the full fetch-call trace. -/
def construct_matrix (fetch : Nat → Nat → Nat → List Nat)
    (block row_count col_count : Nat) : DataMatrix × List Coord :=
  (⟨(construct_rowwise fetch block row_count col_count).1, (block : Int)⟩,
   (construct_rowwise fetch block row_count col_count).2)

/-- The column-major, row-minor fetch order: outer column index ascending,
inner row index ascending. -/
def colMajorTrace (block row_count col_count : Nat) : List Coord :=
  (List.range col_count).flatMap
    (fun col => (List.range row_count).map (fun row => (block, row, col)))

/-- 32-byte little-endian encoding of a field element (first argument:
width in bytes). -/
def natToLeBytes : Nat → Nat → List Nat
  | 0, _ => []
  | n + 1, v => v % 256 :: natToLeBytes n (v / 256)

/-- The synthetic erasure-coded column for the round-trip property: the
evaluations over the size-8 domain of the degree-3 polynomial
`1 + 2 X + 3 X^2 + 4 X^3`. -/
def c8vals : List Nat := (evalDomain 8).map (polyEval [1, 2, 3, 4])

/-- The sub-slice of the synthetic column's 8 cells selected by the bits of
`m`: cell `i` (row `i`, column 7, canonical 32-byte payload of the `i`-th
coded value) is kept exactly when bit `i` of `m` is set. -/
def c8select (m : Nat) : List Cell :=
  (List.range 8).filterMap (fun i =>
    if m.testBit i then some ⟨i, 7, natToLeBytes 32 (c8vals.getD i 0)⟩ else none)


lemma wrapSub64_one {a : Nat} (h0 : 0 < a) (hU : a < USIZE) :
    wrapSub64 a 1 = a - 1 := by
  simp only [wrapSub64, USIZE] at *
  omega

lemma powTwoCheck_two_pow {k : Nat} (hk : k < 64) : powTwoCheck (2 ^ k) = true := by
  have h1 : 0 < 2 ^ k := Nat.two_pow_pos k
  have h2 : 2 ^ k < USIZE := by
    have h3 : (2 : Nat) ^ k < 2 ^ 64 := Nat.pow_lt_pow_right (by omega) hk
    simpa [USIZE] using h3
  have hland : 2 ^ k &&& (2 ^ k - 1) = 0 := by
    apply Nat.eq_of_testBit_eq
    intro i
    rw [Nat.testBit_land, Nat.zero_testBit, Nat.testBit_two_pow,
      Nat.testBit_two_pow_sub_one]
    by_cases h : k = i
    · subst h; simp
    · simp [h]
  simp [powTwoCheck, wrapSub64_one h1 h2, hland]

lemma testBit_high_bit {m k : Nat} (hle : 2 ^ k ≤ m) (hlt : m < 2 ^ (k + 1)) :
    m.testBit k = true := by
  rw [Nat.testBit_to_div_mod]
  have hpow : 2 ^ (k + 1) = 2 * 2 ^ k := by rw [Nat.pow_succ]; ring
  have hdiv : m / 2 ^ k = 1 :=
    Nat.div_eq_of_lt_le (by omega) (by omega)
  simp [hdiv]

lemma powTwoCheck_eq_false {a : Nat} (h0 : 0 < a) (hU : a < USIZE)
    (hnp : ∀ k, a ≠ 2 ^ k) : powTwoCheck a = false := by
  unfold powTwoCheck
  rw [wrapSub64_one h0 hU]
  have hle : 2 ^ a.log2 ≤ a := Nat.log2_self_le (by omega)
  have hlt : a < 2 ^ (a.log2 + 1) := Nat.lt_log2_self
  have hne : a ≠ 2 ^ a.log2 := hnp a.log2
  have t1 : a.testBit a.log2 = true := testBit_high_bit hle hlt
  have t2 : (a - 1).testBit a.log2 = true := testBit_high_bit (by omega) (by omega)
  rw [beq_eq_false_iff_ne]
  intro h
  have hbit := congrArg (fun x => x.testBit a.log2) h
  simp only [Nat.testBit_land, Nat.zero_testBit, t1, t2, Bool.and_self] at hbit
  exact Bool.true_eq_false.mp hbit

lemma find_row_by_index_error_malformed :
    ∀ (cells : List Cell) (idx : Nat) (e : RecFail),
      find_row_by_index idx cells = .error e → e.isMalformedPanic = true := by
  intro cells
  induction cells with
  | nil => intro idx e h; simp [find_row_by_index] at h
  | cons c rest ih =>
    intro idx e h
    rw [find_row_by_index] at h
    by_cases h1 : c.row = idx % 65536
    · rw [if_pos h1] at h
      by_cases h2 : c.proof.length = 32
      · rw [if_pos h2] at h
        cases h3 : blsFromBytes c.proof with
        | some v => rw [h3] at h; exact absurd h (by simp)
        | none => rw [h3] at h; cases h; rfl
      · rw [if_neg h2] at h; cases h; rfl
    · rw [if_neg h1] at h; exact ih idx e h

lemma buildSubset_error_malformed :
    ∀ (is : List Nat) (cells : List Cell) (e : RecFail),
      buildSubset cells is = .error e → e.isMalformedPanic = true := by
  intro is
  induction is with
  | nil => intro cells e h; simp [buildSubset] at h
  | cons i is ih =>
    intro cells e h
    rw [buildSubset] at h
    cases h1 : find_row_by_index i cells with
    | error e1 =>
      rw [h1] at h
      cases h
      exact find_row_by_index_error_malformed _ _ _ h1
    | ok v =>
      rw [h1] at h
      cases h2 : buildSubset cells is with
      | error e2 => rw [h2] at h; cases h; exact ih _ _ h2
      | ok rest => rw [h2] at h; simp at h

lemma buildSubset_error_of_mem :
    ∀ (is : List Nat) (cells : List Cell) (i : Nat), i ∈ is →
      (∃ e0, find_row_by_index i cells = .error e0) →
      ∃ e, buildSubset cells is = .error e := by
  intro is
  induction is with
  | nil => intro cells i h; simp at h
  | cons j js ih =>
    intro cells i hmem hex
    obtain ⟨e0, hf⟩ := hex
    rw [buildSubset]
    cases hj : find_row_by_index j cells with
    | error e => exact ⟨e, rfl⟩
    | ok v =>
      rcases List.mem_cons.mp hmem with h | h
      · subst h; rw [hj] at hf; cases hf
      · obtain ⟨e, he⟩ := ih cells i h ⟨e0, hf⟩
        rw [he]
        exact ⟨e, rfl⟩

lemma reconstruct_poly_error_shape {domain : List Nat} {subset : List (Option Nat)}
    {e : RecFail} (h : reconstruct_poly domain subset = .error e) :
    ∃ msg, e = .reconErr msg := by
  simp only [reconstruct_poly] at h
  split at h
  · cases h; exact ⟨_, rfl⟩
  · simp at h

lemma countCheck_half (rc : Nat) : countCheck rc (rc / 2) = true := by
  simp only [countCheck, Bool.and_eq_true, decide_eq_true_eq]
  omega

lemma countCheck_full (rc : Nat) : countCheck rc rc = true := by
  simp only [countCheck, Bool.and_eq_true, decide_eq_true_eq]
  omega

lemma check_cells_error_shape {cells : List Cell} {e : RecFail}
    (h : check_cells cells = some e) :
    e = .assertEmpty ∨ e = .assertColMismatch := by
  cases cells with
  | nil =>
    simp only [check_cells] at h
    exact Or.inl (Option.some.inj h).symm
  | cons c0 rest =>
    simp only [check_cells] at h
    split at h
    · simp at h
    · exact Or.inr (Option.some.inj h).symm

lemma reconstruct_column_after_checks {rc : Nat} {cells : List Cell}
    (hp : powTwoCheck rc = true) (hc : countCheck rc cells.length = true) :
    ∀ e, reconstruct_column rc cells = .error e →
      e = .assertEmpty ∨ e = .assertColMismatch ∨ e.isMalformedPanic = true ∨
        ∃ msg, e = .reconErr msg := by
  intro e h
  unfold reconstruct_column at h
  rw [if_pos hp, if_pos hc] at h
  cases hcc : check_cells cells with
  | some e1 =>
    rw [hcc] at h
    cases h
    rcases check_cells_error_shape hcc with h1 | h1
    · exact Or.inl h1
    · exact Or.inr (Or.inl h1)
  | none =>
    rw [hcc] at h
    cases hbs : buildSubset cells (List.range rc) with
    | error e1 =>
      rw [hbs] at h
      cases h
      exact Or.inr (Or.inr (Or.inl (buildSubset_error_malformed _ _ _ hbs)))
    | ok subset =>
      rw [hbs] at h
      exact Or.inr (Or.inr (Or.inr (reconstruct_poly_error_shape h)))

/-- C1: for every `usize` power-of-two `row_count` and every cell slice on a
single column, `reconstruct_column` fails when given fewer than
`row_count / 2` cells; its count precondition is satisfied (the call does
not fail on the count check) when given exactly `row_count / 2` cells and
when given exactly `row_count` cells; and it fails when given more than
`row_count` cells. -/
theorem c1_reconstruct_column_threshold (k : Nat) (hk : k < 64)
    (row_count : Nat) (hrc : row_count = 2 ^ k) (cells : List Cell) (c : Nat)
    (_hcol : ∀ x ∈ cells, x.col = c) :
    (cells.length < row_count / 2 →
       reconstruct_column row_count cells = .error .assertCount) ∧
    (countCheck row_count (row_count / 2) = true ∧
       countCheck row_count row_count = true) ∧
    ((cells.length = row_count / 2 ∨ cells.length = row_count) →
       reconstruct_column row_count cells ≠ .error .assertPow2 ∧
       reconstruct_column row_count cells ≠ .error .assertCount) ∧
    (row_count < cells.length →
       reconstruct_column row_count cells = .error .assertCount) := by
  subst hrc
  have hp := powTwoCheck_two_pow hk
  refine ⟨?_, ⟨?_, ?_⟩, ?_, ?_⟩
  · intro hlen
    have hcf : countCheck (2 ^ k) cells.length = false := by
      simp only [countCheck, Bool.and_eq_false_iff, decide_eq_false_iff_not]
      omega
    unfold reconstruct_column
    rw [if_pos hp, if_neg (by simp [hcf])]
  · exact countCheck_half _
  · exact countCheck_full _
  · intro hlen
    have hc : countCheck (2 ^ k) cells.length = true := by
      simp only [countCheck, Bool.and_eq_true, decide_eq_true_eq]
      omega
    constructor
    · intro h
      rcases reconstruct_column_after_checks hp hc _ h with h1 | h1 | h1 | ⟨msg, h1⟩ <;>
        simp [RecFail.isMalformedPanic] at h1
    · intro h
      rcases reconstruct_column_after_checks hp hc _ h with h1 | h1 | h1 | ⟨msg, h1⟩ <;>
        simp [RecFail.isMalformedPanic] at h1
  · intro hlen
    have hcf : countCheck (2 ^ k) cells.length = false := by
      simp only [countCheck, Bool.and_eq_false_iff, decide_eq_false_iff_not]
      omega
    unfold reconstruct_column
    rw [if_pos hp, if_neg (by simp [hcf])]

theorem c1_witness :
    reconstruct_column 4 [⟨0, 0, []⟩] = .error .assertCount ∧
    countCheck 4 2 = true ∧ countCheck 4 4 = true :=
  have h := c1_reconstruct_column_threshold 2 (by decide) 4 rfl
    [⟨0, 0, []⟩] 0 (by decide)
  ⟨h.1 (by decide), h.2.1⟩

/-- C2: whenever two input cells carry different column indices, the call to
`reconstruct_column` aborts via a contract check (an assert-class panic,
raised before any payload decoding or interpolation); and whenever the cells
all share one column index, the column-mismatch check passes (it never
raises the mismatch abort). -/
theorem c2_reconstruct_column_mismatch (row_count : Nat) (cells : List Cell) :
    (∀ a b, a ∈ cells → b ∈ cells → a.col ≠ b.col →
       ∃ e, reconstruct_column row_count cells = .error e ∧
         e.isContractAssert = true) ∧
    (∀ c, (∀ x ∈ cells, x.col = c) →
       check_cells cells ≠ some .assertColMismatch) := by
  constructor
  · intro a b ha hb hab
    unfold reconstruct_column
    by_cases hp : powTwoCheck row_count = true
    · rw [if_pos hp]
      by_cases hc : countCheck row_count cells.length = true
      · rw [if_pos hc]
        have hcc : check_cells cells = some .assertColMismatch := by
          cases hcl : cells with
          | nil => subst hcl; simp at ha
          | cons c0 rest =>
            subst hcl
            simp only [check_cells]
            rw [if_neg]
            intro hall
            have h1 := List.all_eq_true.mp hall a ha
            have h2 := List.all_eq_true.mp hall b hb
            exact hab (by rw [beq_iff_eq.mp h1, beq_iff_eq.mp h2])
        rw [hcc]
        exact ⟨.assertColMismatch, rfl, rfl⟩
      · rw [if_neg hc]
        exact ⟨.assertCount, rfl, rfl⟩
    · rw [if_neg hp]
      exact ⟨.assertPow2, rfl, rfl⟩
  · intro c hall
    cases cells with
    | nil => simp [check_cells]
    | cons c0 rest =>
      simp only [check_cells]
      rw [if_pos]
      · simp
      · refine List.all_eq_true.mpr ?_
        intro x hx
        have h1 := hall x hx
        have h2 := hall c0 (List.mem_cons_self c0 rest)
        rw [h1, h2]
        exact beq_self_eq_true c

theorem c2_witness :
    (∃ e, reconstruct_column 2 [⟨0, 0, []⟩, ⟨1, 1, []⟩] = .error e ∧
       e.isContractAssert = true) ∧
    check_cells [⟨0, 5, []⟩, ⟨1, 5, []⟩] ≠ some .assertColMismatch :=
  ⟨(c2_reconstruct_column_mismatch 2 [⟨0, 0, []⟩, ⟨1, 1, []⟩]).1
      ⟨0, 0, []⟩ ⟨1, 1, []⟩ (by decide) (by decide) (by decide),
   (c2_reconstruct_column_mismatch 2 [⟨0, 5, []⟩, ⟨1, 5, []⟩]).2 5 (by decide)⟩

/-- C3 counterexample: `row_count = 0` is not a power of two, yet the
wrapping bit test `row_count & (row_count - 1) == 0` accepts it, so the
call with `row_count = 0` does not fail on the power-of-two contract check
(it fails on the count check instead). -/
theorem c3_counterexample :
    (∀ k : Nat, (0 : Nat) ≠ 2 ^ k) ∧
    powTwoCheck 0 = true ∧
    reconstruct_column 0 [⟨0, 0, []⟩] ≠ .error .assertPow2 ∧
    reconstruct_column 0 [⟨0, 0, []⟩] = .error .assertCount :=
  ⟨fun k h => (Nat.two_pow_pos k).ne' h.symm, by decide, by decide, by decide⟩

/-- C3 amended: for every nonzero `usize` `row_count` that is not a power of
two (for example 6 or 10), `reconstruct_column` fails fast on the
power-of-two contract check, regardless of the cells supplied.  (The value
`row_count = 0`, also not a power of two, instead slips past the wrapping
bit test and is rejected by the later checks.) -/
theorem c3_amended_pow2_fail (row_count : Nat) (h0 : 0 < row_count)
    (hU : row_count < USIZE) (hnp : ∀ k, row_count ≠ 2 ^ k)
    (cells : List Cell) :
    reconstruct_column row_count cells = .error .assertPow2 := by
  unfold reconstruct_column
  rw [if_neg (by simp [powTwoCheck_eq_false h0 hU hnp])]

theorem c3_witness : reconstruct_column 6 [] = .error .assertPow2 :=
  c3_amended_pow2_fail 6 (by decide) (by decide)
    (fun k h => by
      have h8 : ∀ j, j < 3 → (6 : Nat) ≠ 2 ^ j := by decide
      by_cases hk : k < 3
      · exact h8 k hk h
      · have hge : 8 ≤ 2 ^ k := by
          calc (8 : Nat) = 2 ^ 3 := rfl
          _ ≤ 2 ^ k := Nat.pow_le_pow_right (by decide) (by omega)
        omega)
    []

/-- C10: the bit test `row_count & (row_count - 1) == 0` (with wrapping
subtraction) is satisfied by `row_count = 0` even though 0 is not a power of
two; a call with `row_count = 0` is nevertheless rejected for every cells
input: the count check forces `cells` to be empty while the column check
requires `cells` to be non-empty, so no call returns `ok`. -/
theorem c10_zero_row_count :
    powTwoCheck 0 = true ∧
    reconstruct_column 0 [] = .error .assertEmpty ∧
    (∀ cells : List Cell, cells ≠ [] →
       reconstruct_column 0 cells = .error .assertCount) ∧
    (∀ cells : List Cell, (reconstruct_column 0 cells).isOk = false) := by
  have h3 : ∀ cells : List Cell, cells ≠ [] →
      reconstruct_column 0 cells = .error .assertCount := by
    intro cells hne
    have hcc : countCheck 0 cells.length = false := by
      cases cells with
      | nil => exact absurd rfl hne
      | cons c cs => simp [countCheck]
    unfold reconstruct_column
    rw [if_pos (by decide), if_neg (by simp [hcc])]
  refine ⟨by decide, by decide, h3, ?_⟩
  intro cells
  cases hcl : cells with
  | nil => decide
  | cons c cs => rw [h3 (c :: cs) (by simp)]; rfl

theorem c10_witness : reconstruct_column 0 [⟨0, 0, []⟩] = .error .assertCount :=
  c10_zero_row_count.2.2.1 [⟨0, 0, []⟩] (by decide)

/-- C4 counterexample: a malformed (3-byte) payload on an otherwise valid
call makes `reconstruct_column` abort via the `expect` panic on `try_into`:
a process abort of the malformed-sample kind, not a propagated `Err` value
returned to the caller. -/
theorem c4_counterexample :
    reconstruct_column 2 [⟨0, 0, [1, 2, 3]⟩] = .error .panicProofLen ∧
    RecFail.isPanic .panicProofLen = true ∧
    RecFail.isMalformedPanic .panicProofLen = true ∧
    (∀ msg, RecFail.panicProofLen ≠ .reconErr msg) :=
  ⟨by decide, rfl, rfl, fun msg h => by cases h⟩

/-- C4 amended: when the contract checks pass and the row scan meets a cell
whose payload is not a canonical fixed-width (32-byte) field-element
encoding, the malformed encoding is not silently skipped, but it is not a
propagated error either: the call aborts with a malformed-sample panic
(`expect`/`unwrap`), distinguishable from the contract asserts and from the
returned interpolation error. -/
theorem c4_amended_malformed_aborts (row_count : Nat) (cells : List Cell)
    (hp : powTwoCheck row_count = true)
    (hc : countCheck row_count cells.length = true)
    (hcc : check_cells cells = none)
    (i : Nat) (hi : i < row_count) (e0 : RecFail)
    (hfind : find_row_by_index i cells = .error e0) :
    ∃ e, reconstruct_column row_count cells = .error e ∧
      e.isMalformedPanic = true ∧ e.isPanic = true ∧
      (∀ msg, e ≠ .reconErr msg) := by
  obtain ⟨e, hbs⟩ := buildSubset_error_of_mem (List.range row_count) cells i
    (List.mem_range.mpr hi) ⟨e0, hfind⟩
  have hmal := buildSubset_error_malformed _ _ _ hbs
  refine ⟨e, ?_, hmal, ?_, ?_⟩
  · unfold reconstruct_column
    rw [if_pos hp, if_pos hc, hcc, hbs]
  · cases e <;> simp_all [RecFail.isMalformedPanic, RecFail.isPanic]
  · intro msg h
    subst h
    simp [RecFail.isMalformedPanic] at hmal

theorem c4_amended_witness :
    ∃ e, reconstruct_column 2 [⟨1, 3, [5]⟩] = .error e ∧
      e.isMalformedPanic = true ∧ e.isPanic = true ∧
      (∀ msg, e ≠ .reconErr msg) :=
  c4_amended_malformed_aborts 2 [⟨1, 3, [5]⟩] (by decide) (by decide) (by decide)
    1 (by decide) .panicProofLen (by decide)

lemma pinAndInsert_eq (env : StoreOracle) (blk : IpldBlock) (st : IpfsState) :
    pinAndInsert env blk st =
      (blkRes env blk, ⟨st.pins ++ blkPins env blk, st.store ++ blkStore env blk⟩) := by
  unfold pinAndInsert blkRes blkPins blkStore blkOk
  by_cases h1 : env.pinFail blk.cid
  · simp [h1]
  · by_cases h2 : env.insertFail blk.cid
    · simp [h1, h2]
    · simp [h1, h2]

lemma pushCells_eq (env : StoreOracle) :
    ∀ (cells : List BaseCell) (st : IpfsState),
      pushCells env cells st =
        ((cells.filter (cellOk env)).map (fun c => Ipld.link c.cid),
         ⟨st.pins ++ cells.flatMap (blkPins env),
          st.store ++ cells.flatMap (blkStore env)⟩) := by
  intro cells
  induction cells with
  | nil => intro st; simp [pushCells]
  | cons cell rest ih =>
    intro st
    rw [pushCells, push_cell, pinAndInsert_eq]
    by_cases h : cellOk env cell
    · have hres : blkRes env cell = some cell.cid := by simp [blkRes, cellOk] at h ⊢; simp [h]
      rw [hres]
      simp only [ih]
      simp [List.filter_cons, h, List.flatMap_cons, List.append_assoc]
    · have hres : blkRes env cell = none := by
        simp only [blkRes, cellOk] at h ⊢
        simp [h]
      rw [hres]
      simp only [ih]
      have hstore : blkStore env cell = [] := by
        simp only [blkStore, cellOk] at h ⊢
        simp [h]
      simp [List.filter_cons, h, List.flatMap_cons, List.append_assoc, hstore]

lemma push_col_eq (env : StoreOracle) (col : L0Col) (st : IpfsState) :
    push_col env col st =
      (blkRes env ⟨colContent env col⟩,
       ⟨st.pins ++ colNewPins env col, st.store ++ colNewStore env col⟩) := by
  unfold push_col
  rw [pushCells_eq, pinAndInsert_eq]
  simp only [colNewPins, colNewStore, IpldBlock.encode, colContent, colLinks,
    cellOk, List.append_assoc]

lemma pushCols_eq (env : StoreOracle) :
    ∀ (cols : List L0Col) (st : IpfsState),
      pushCols env cols st =
        ((cols.filter (colOk env)).map (fun col => Ipld.link (colContent env col)),
         ⟨st.pins ++ cols.flatMap (colNewPins env),
          st.store ++ cols.flatMap (colNewStore env)⟩) := by
  intro cols
  induction cols with
  | nil => intro st; simp [pushCols]
  | cons col rest ih =>
    intro st
    rw [pushCols, push_col_eq]
    by_cases h : colOk env col
    · have hres : blkRes env ⟨colContent env col⟩ = some (colContent env col) := by
        simp only [blkRes, colOk] at h ⊢
        simp [h, IpldBlock.cid]
      rw [hres]
      simp only [ih]
      simp [List.filter_cons, h, List.flatMap_cons, List.append_assoc]
    · have hres : blkRes env ⟨colContent env col⟩ = none := by
        simp only [blkRes, colOk] at h ⊢
        simp [h]
      rw [hres]
      simp only [ih]
      simp [List.filter_cons, h, List.flatMap_cons, List.append_assoc]

lemma push_row_eq (env : StoreOracle) (row : L1Row) (block_num : Int)
    (latest_cid : Option Cid) (st : IpfsState) :
    push_row env row block_num latest_cid st =
      (blkRes env ⟨rootContent env row block_num latest_cid⟩,
       ⟨st.pins ++ (row.l0_cols.flatMap (colNewPins env) ++
          blkPins env ⟨rootContent env row block_num latest_cid⟩),
        st.store ++ (row.l0_cols.flatMap (colNewStore env) ++
          blkStore env ⟨rootContent env row block_num latest_cid⟩)⟩) := by
  unfold push_row
  rw [pushCols_eq, pinAndInsert_eq]
  simp only [IpldBlock.encode, rootContent, rowLinks, List.append_assoc]

lemma push_matrix_eq (env : StoreOracle) (dm : DataMatrix) (latest_cid : Option Cid)
    (st : IpfsState) :
    push_matrix env dm latest_cid st =
      (blkRes env ⟨rootContent env dm.l1_row dm.block_num latest_cid⟩,
       ⟨st.pins ++ matrixNewPins env dm latest_cid,
        st.store ++ matrixNewStore env dm latest_cid⟩) := by
  unfold push_matrix matrixNewPins matrixNewStore
  exact push_row_eq env dm.l1_row dm.block_num latest_cid st

/-- C5: an individual cell whose `push_cell` fails is silently omitted from
its column's link list (no placeholder), and a column whose `push_col`
fails is silently omitted from the root's columns list; surviving links keep
their original order (ascending row order within a column, ascending column
order within the root, both obtained by order-preserving filtering); and
`push_matrix` returns a successful root identifier in exactly the cases
where the root block's own pin and insert succeed — cell and column
failures never fail the call. -/
theorem c5_publish_silent_omission (env : StoreOracle) (col : L0Col)
    (dm : DataMatrix) (latest_cid : Option Cid) (st : IpfsState) :
    (push_col env col st).1 =
      (if colOk env col then
         some (Ipld.list ((col.base_cells.filter (cellOk env)).map
           (fun c => Ipld.link c.cid)))
       else none) ∧
    (push_matrix env dm latest_cid st).1 =
      (if rootOk env dm.l1_row dm.block_num latest_cid then
         some (Ipld.stringMap (rootMap
           ((dm.l1_row.l0_cols.filter (colOk env)).map
             (fun c => Ipld.link (colContent env c)))
           dm.block_num latest_cid))
       else none) := by
  constructor
  · rw [push_col_eq]
    simp only [blkRes, colOk, colContent, colLinks, IpldBlock.cid]
  · rw [push_matrix_eq]
    simp only [blkRes, rootOk, rootContent, rowLinks, IpldBlock.cid]

lemma rootMap_entries (cols : List Ipld) (bn : Int) (latest_cid : Option Cid) :
    rootMap cols bn latest_cid =
      [("block", Ipld.integer bn), ("columns", Ipld.list cols),
       ("prev", match latest_cid with
                | some cid => Ipld.link cid
                | none => Ipld.null)] := by
  simp only [rootMap, btreeInsert]
  rw [if_neg (show ¬ (keyLt ['p', 'r', 'e', 'v'] ['b', 'l', 'o', 'c', 'k'] = true) from
        by decide),
    if_neg (show ¬ (['p', 'r', 'e', 'v'] = ['b', 'l', 'o', 'c', 'k']) from by decide),
    if_neg (show ¬ (keyLt ['p', 'r', 'e', 'v'] ['c', 'o', 'l', 'u', 'm', 'n', 's'] = true) from
        by decide),
    if_neg (show ¬ (['p', 'r', 'e', 'v'] = ['c', 'o', 'l', 'u', 'm', 'n', 's']) from by decide)]

lemma rootMap_none (cols : List Ipld) (bn : Int) :
    rootMap cols bn none =
      [("block", Ipld.integer bn), ("columns", Ipld.list cols),
       ("prev", Ipld.null)] := rootMap_entries cols bn none

lemma rootMap_some (cols : List Ipld) (bn : Int) (prev : Cid) :
    rootMap cols bn (some prev) =
      [("block", Ipld.integer bn), ("columns", Ipld.list cols),
       ("prev", Ipld.link prev)] := rootMap_entries cols bn (some prev)

/-- C9: publishing the same matrix content twice — identical payloads,
identical block number, identical previous-root argument, the same
per-identifier publish-success oracle — yields identical identifiers at
every level: the root result, every column's result and every leaf's result
agree between the two runs regardless of the pre-existing store state, and
the appended block sequence (hence every stored block at every level) is
the same pure function of the serialized inputs in both runs. -/
theorem c9_publish_deterministic (env : StoreOracle) (dm : DataMatrix)
    (latest_cid : Option Cid) (st st' : IpfsState) :
    (push_matrix env dm latest_cid st).1 = (push_matrix env dm latest_cid st').1 ∧
    (∀ (col : L0Col) (stA stB : IpfsState),
       (push_col env col stA).1 = (push_col env col stB).1) ∧
    (∀ (cell : BaseCell) (stA stB : IpfsState),
       (push_cell env cell stA).1 = (push_cell env cell stB).1) ∧
    (push_matrix env dm latest_cid st).2.store =
      st.store ++ matrixNewStore env dm latest_cid ∧
    (push_matrix env dm latest_cid st').2.store =
      st'.store ++ matrixNewStore env dm latest_cid := by
  refine ⟨?_, ?_, ?_, ?_, ?_⟩
  · rw [push_matrix_eq, push_matrix_eq]
  · intro col stA stB
    rw [push_col_eq, push_col_eq]
  · intro cell stA stB
    unfold push_cell
    rw [pinAndInsert_eq, pinAndInsert_eq]
  · rw [push_matrix_eq]
  · rw [push_matrix_eq]

/-- C6: publishing a 2×2 matrix with no failures inserts exactly 4 leaf
blocks, 2 column blocks and 1 root block into the store, in bottom-up
operation order; the root block is a map with exactly the three keys
`"block"`, `"columns"`, `"prev"` (in `BTreeMap` key order), where `"prev"`
is the explicit null value when no previous root identifier is supplied and
is a link equal to the supplied identifier otherwise. -/
theorem c6_publish_2x2_shape (env : StoreOracle)
    (hpin : ∀ c, env.pinFail c = false) (hins : ∀ c, env.insertFail c = false)
    (c00 c01 c10 c11 : Ipld) (bn : Int) (st : IpfsState) (prev : Cid) :
    (push_matrix env ⟨⟨[⟨[⟨c00⟩, ⟨c01⟩]⟩, ⟨[⟨c10⟩, ⟨c11⟩]⟩]⟩, bn⟩ none st).2.store =
      st.store ++
        [c00, c01, Ipld.list [Ipld.link c00, Ipld.link c01],
         c10, c11, Ipld.list [Ipld.link c10, Ipld.link c11],
         Ipld.stringMap
           [("block", Ipld.integer bn),
            ("columns", Ipld.list
              [Ipld.link (Ipld.list [Ipld.link c00, Ipld.link c01]),
               Ipld.link (Ipld.list [Ipld.link c10, Ipld.link c11])]),
            ("prev", Ipld.null)]] ∧
    (push_matrix env ⟨⟨[⟨[⟨c00⟩, ⟨c01⟩]⟩, ⟨[⟨c10⟩, ⟨c11⟩]⟩]⟩, bn⟩ none st).1 =
      some (Ipld.stringMap
        [("block", Ipld.integer bn),
         ("columns", Ipld.list
           [Ipld.link (Ipld.list [Ipld.link c00, Ipld.link c01]),
            Ipld.link (Ipld.list [Ipld.link c10, Ipld.link c11])]),
         ("prev", Ipld.null)]) ∧
    (push_matrix env ⟨⟨[⟨[⟨c00⟩, ⟨c01⟩]⟩, ⟨[⟨c10⟩, ⟨c11⟩]⟩]⟩, bn⟩ (some prev) st).1 =
      some (Ipld.stringMap
        [("block", Ipld.integer bn),
         ("columns", Ipld.list
           [Ipld.link (Ipld.list [Ipld.link c00, Ipld.link c01]),
            Ipld.link (Ipld.list [Ipld.link c10, Ipld.link c11])]),
         ("prev", Ipld.link prev)]) := by
  have hok : ∀ blk : IpldBlock, blkOk env blk = true := by
    intro blk
    simp [blkOk, hpin, hins]
  have hbs : ∀ blk : IpldBlock, blkStore env blk = [blk.data] := by
    intro blk
    simp [blkStore, hok]
  have hbr : ∀ blk : IpldBlock, blkRes env blk = some blk.cid := by
    intro blk
    simp [blkRes, hok]
  refine ⟨?_, ?_, ?_⟩ <;>
    rw [push_matrix_eq] <;>
    simp [matrixNewStore, colNewStore, colContent, colLinks, rowLinks, rootContent,
      hbs, hbr, hok, cellOk, colOk, IpldBlock.cid, rootMap_none, rootMap_some,
      List.filter_cons, List.flatMap_cons, List.flatMap_nil, List.filter_nil]

theorem c6_witness :
    (push_matrix ⟨fun _ => false, fun _ => false⟩
        ⟨⟨[⟨[⟨Ipld.bytes [0]⟩, ⟨Ipld.bytes [1]⟩]⟩,
           ⟨[⟨Ipld.bytes [2]⟩, ⟨Ipld.bytes [3]⟩]⟩]⟩, 9⟩ none ⟨[], []⟩).2.store =
      [Ipld.bytes [0], Ipld.bytes [1],
       Ipld.list [Ipld.link (Ipld.bytes [0]), Ipld.link (Ipld.bytes [1])],
       Ipld.bytes [2], Ipld.bytes [3],
       Ipld.list [Ipld.link (Ipld.bytes [2]), Ipld.link (Ipld.bytes [3])],
       Ipld.stringMap
         [("block", Ipld.integer 9),
          ("columns", Ipld.list
            [Ipld.link (Ipld.list [Ipld.link (Ipld.bytes [0]),
               Ipld.link (Ipld.bytes [1])]),
             Ipld.link (Ipld.list [Ipld.link (Ipld.bytes [2]),
               Ipld.link (Ipld.bytes [3])])]),
          ("prev", Ipld.null)]] ∧
    (push_matrix ⟨fun _ => false, fun _ => false⟩
        ⟨⟨[⟨[⟨Ipld.bytes [0]⟩, ⟨Ipld.bytes [1]⟩]⟩,
           ⟨[⟨Ipld.bytes [2]⟩, ⟨Ipld.bytes [3]⟩]⟩]⟩, 9⟩
        (some (Ipld.bytes [7])) ⟨[], []⟩).1 =
      some (Ipld.stringMap
        [("block", Ipld.integer 9),
         ("columns", Ipld.list
           [Ipld.link (Ipld.list [Ipld.link (Ipld.bytes [0]),
              Ipld.link (Ipld.bytes [1])]),
            Ipld.link (Ipld.list [Ipld.link (Ipld.bytes [2]),
              Ipld.link (Ipld.bytes [3])])]),
         ("prev", Ipld.link (Ipld.bytes [7]))]) := by
  have h := c6_publish_2x2_shape ⟨fun _ => false, fun _ => false⟩
    (fun _ => rfl) (fun _ => rfl)
    (Ipld.bytes [0]) (Ipld.bytes [1]) (Ipld.bytes [2]) (Ipld.bytes [3]) 9
    ⟨[], []⟩ (Ipld.bytes [7])
  exact ⟨by simpa using h.1, h.2.2⟩

lemma flatMap_single {α β : Type} (f : α → β) (l : List α) :
    l.flatMap (fun x => [f x]) = l.map f := by
  induction l with
  | nil => rfl
  | cons a as ih => simp [List.flatMap_cons, ih]

lemma construct_matrix_trace (fetch : Nat → Nat → Nat → List Nat)
    (block row_count col_count : Nat) :
    (construct_matrix fetch block row_count col_count).2 =
      colMajorTrace block row_count col_count := by
  simp [construct_matrix, construct_rowwise, construct_colwise, construct_cell,
    colMajorTrace, flatMap_single]

lemma colMajorTrace_length (block row_count col_count : Nat) :
    (colMajorTrace block row_count col_count).length = row_count * col_count := by
  rw [colMajorTrace, List.length_flatMap]
  have hmap : List.map (List.length ∘ fun col =>
        List.map (fun row => (block, row, col)) (List.range row_count))
        (List.range col_count) =
      List.map (fun _ => row_count) (List.range col_count) := by
    apply List.map_congr_left
    intro a ha
    simp
  rw [hmap, List.map_const', List.length_range, List.sum_const_nat,
    Nat.mul_comm]

lemma colMajorTrace_nodup (block row_count col_count : Nat) :
    (colMajorTrace block row_count col_count).Nodup := by
  refine List.nodup_flatMap.mpr ⟨?_, ?_⟩
  · intro c hc
    refine (List.nodup_range row_count).map ?_
    intro a b h
    simpa using h
  · refine (List.pairwise_lt_range col_count).imp ?_
    intro c1 c2 hlt x hx1 hx2
    simp only [List.mem_map, List.mem_range] at hx1 hx2
    obtain ⟨r1, hr1, he1⟩ := hx1
    obtain ⟨r2, hr2, he2⟩ := hx2
    have h12 : (block, r1, c1) = (block, r2, c2) := he1.trans he2.symm
    have hc : c1 = c2 := congrArg (fun q => q.2.2) h12
    omega

lemma colMajorTrace_mem (block row_count col_count b r c : Nat) :
    (b, r, c) ∈ colMajorTrace block row_count col_count ↔
      b = block ∧ r < row_count ∧ c < col_count := by
  simp only [colMajorTrace, List.mem_flatMap, List.mem_map, List.mem_range,
    Prod.mk.injEq]
  constructor
  · rintro ⟨col, hcol, row, hrow, hb, hr, hc⟩
    exact ⟨hb.symm, hr ▸ hrow, hc ▸ hcol⟩
  · rintro ⟨hb, hr, hc⟩
    exact ⟨c, hc, r, hr, hb.symm, rfl, rfl⟩

/-- C7: `construct_matrix` fetches exactly `row_count * col_count`
coordinates from the cell-retrieval collaborator, one call per (row, column)
pair, each coordinate exactly once (the trace is duplicate-free and contains
precisely the in-range coordinates), in column-major, row-minor order; in
particular `construct_matrix (block := 5)` with 4 rows and 2 columns issues
exactly the 8 calls listed, in that order. -/
theorem c7_construct_matrix_coverage :
    (∀ (fetch : Nat → Nat → Nat → List Nat) (block row_count col_count : Nat),
       (construct_matrix fetch block row_count col_count).2 =
         colMajorTrace block row_count col_count) ∧
    (∀ block row_count col_count : Nat,
       (colMajorTrace block row_count col_count).length =
         row_count * col_count) ∧
    (∀ block row_count col_count : Nat,
       (colMajorTrace block row_count col_count).Nodup) ∧
    (∀ block row_count col_count b r c : Nat,
       (b, r, c) ∈ colMajorTrace block row_count col_count ↔
         b = block ∧ r < row_count ∧ c < col_count) ∧
    (∀ fetch : Nat → Nat → Nat → List Nat,
       (construct_matrix fetch 5 4 2).2 =
         [(5, 0, 0), (5, 1, 0), (5, 2, 0), (5, 3, 0),
          (5, 0, 1), (5, 1, 1), (5, 2, 1), (5, 3, 1)]) :=
  ⟨construct_matrix_trace, colMajorTrace_length, colMajorTrace_nodup,
   colMajorTrace_mem,
   fun fetch => by rw [construct_matrix_trace]; decide⟩

set_option maxRecDepth 400000 in
lemma c8chunk0 : ∀ j, j < 16 → ¬ (4 ≤ (c8select j).length) ∨
    reconstruct_column 8 (c8select j) = .ok c8vals := by decide

set_option maxRecDepth 400000 in
lemma c8chunk1 : ∀ j, j < 16 → ¬ (4 ≤ (c8select (16 + j)).length) ∨
    reconstruct_column 8 (c8select (16 + j)) = .ok c8vals := by decide

set_option maxRecDepth 400000 in
lemma c8chunk2 : ∀ j, j < 16 → ¬ (4 ≤ (c8select (32 + j)).length) ∨
    reconstruct_column 8 (c8select (32 + j)) = .ok c8vals := by decide

set_option maxRecDepth 400000 in
lemma c8chunk3 : ∀ j, j < 16 → ¬ (4 ≤ (c8select (48 + j)).length) ∨
    reconstruct_column 8 (c8select (48 + j)) = .ok c8vals := by decide

set_option maxRecDepth 400000 in
lemma c8chunk4 : ∀ j, j < 16 → ¬ (4 ≤ (c8select (64 + j)).length) ∨
    reconstruct_column 8 (c8select (64 + j)) = .ok c8vals := by decide

set_option maxRecDepth 400000 in
lemma c8chunk5 : ∀ j, j < 16 → ¬ (4 ≤ (c8select (80 + j)).length) ∨
    reconstruct_column 8 (c8select (80 + j)) = .ok c8vals := by decide

set_option maxRecDepth 400000 in
lemma c8chunk6 : ∀ j, j < 16 → ¬ (4 ≤ (c8select (96 + j)).length) ∨
    reconstruct_column 8 (c8select (96 + j)) = .ok c8vals := by decide

set_option maxRecDepth 400000 in
lemma c8chunk7 : ∀ j, j < 16 → ¬ (4 ≤ (c8select (112 + j)).length) ∨
    reconstruct_column 8 (c8select (112 + j)) = .ok c8vals := by decide

set_option maxRecDepth 400000 in
lemma c8chunk8 : ∀ j, j < 16 → ¬ (4 ≤ (c8select (128 + j)).length) ∨
    reconstruct_column 8 (c8select (128 + j)) = .ok c8vals := by decide

set_option maxRecDepth 400000 in
lemma c8chunk9 : ∀ j, j < 16 → ¬ (4 ≤ (c8select (144 + j)).length) ∨
    reconstruct_column 8 (c8select (144 + j)) = .ok c8vals := by decide

set_option maxRecDepth 400000 in
lemma c8chunk10 : ∀ j, j < 16 → ¬ (4 ≤ (c8select (160 + j)).length) ∨
    reconstruct_column 8 (c8select (160 + j)) = .ok c8vals := by decide

set_option maxRecDepth 400000 in
lemma c8chunk11 : ∀ j, j < 16 → ¬ (4 ≤ (c8select (176 + j)).length) ∨
    reconstruct_column 8 (c8select (176 + j)) = .ok c8vals := by decide

set_option maxRecDepth 400000 in
lemma c8chunk12 : ∀ j, j < 16 → ¬ (4 ≤ (c8select (192 + j)).length) ∨
    reconstruct_column 8 (c8select (192 + j)) = .ok c8vals := by decide

set_option maxRecDepth 400000 in
lemma c8chunk13 : ∀ j, j < 16 → ¬ (4 ≤ (c8select (208 + j)).length) ∨
    reconstruct_column 8 (c8select (208 + j)) = .ok c8vals := by decide

set_option maxRecDepth 400000 in
lemma c8chunk14 : ∀ j, j < 16 → ¬ (4 ≤ (c8select (224 + j)).length) ∨
    reconstruct_column 8 (c8select (224 + j)) = .ok c8vals := by decide

set_option maxRecDepth 400000 in
lemma c8chunk15 : ∀ j, j < 16 → ¬ (4 ≤ (c8select (240 + j)).length) ∨
    reconstruct_column 8 (c8select (240 + j)) = .ok c8vals := by decide

set_option maxRecDepth 400000 in
/-- C8: for the synthetic column of `row_count = 8` known field elements
(the degree-3 erasure-coded polynomial evaluations `c8vals`) encoded into 8
cells, every selection of at least `row_count / 2 = 4` of the 8 distinct-row
cells — in particular every one of the C(8,4) choices of 4 removed cells —
makes `reconstruct_column 8` return the original 8 values, so the
reconstructed sequence is identical regardless of which valid subset at or
above the threshold is supplied. -/
theorem c8_reconstruct_column_roundtrip (m : Nat) (hm : m < 256)
    (hcard : 4 ≤ (c8select m).length) :
    reconstruct_column 8 (c8select m) = .ok c8vals := by
  by_cases h0 : m < 16
  · exact (c8chunk0 m h0).resolve_left (fun hn => hn hcard)
  · by_cases h1 : m < 32
    · have h := c8chunk1 (m - 16) (by omega)
      rw [show 16 + (m - 16) = m from by omega] at h
      exact h.resolve_left (fun hn => hn hcard)
    · by_cases h2 : m < 48
      · have h := c8chunk2 (m - 32) (by omega)
        rw [show 32 + (m - 32) = m from by omega] at h
        exact h.resolve_left (fun hn => hn hcard)
      · by_cases h3 : m < 64
        · have h := c8chunk3 (m - 48) (by omega)
          rw [show 48 + (m - 48) = m from by omega] at h
          exact h.resolve_left (fun hn => hn hcard)
        · by_cases h4 : m < 80
          · have h := c8chunk4 (m - 64) (by omega)
            rw [show 64 + (m - 64) = m from by omega] at h
            exact h.resolve_left (fun hn => hn hcard)
          · by_cases h5 : m < 96
            · have h := c8chunk5 (m - 80) (by omega)
              rw [show 80 + (m - 80) = m from by omega] at h
              exact h.resolve_left (fun hn => hn hcard)
            · by_cases h6 : m < 112
              · have h := c8chunk6 (m - 96) (by omega)
                rw [show 96 + (m - 96) = m from by omega] at h
                exact h.resolve_left (fun hn => hn hcard)
              · by_cases h7 : m < 128
                · have h := c8chunk7 (m - 112) (by omega)
                  rw [show 112 + (m - 112) = m from by omega] at h
                  exact h.resolve_left (fun hn => hn hcard)
                · by_cases h8 : m < 144
                  · have h := c8chunk8 (m - 128) (by omega)
                    rw [show 128 + (m - 128) = m from by omega] at h
                    exact h.resolve_left (fun hn => hn hcard)
                  · by_cases h9 : m < 160
                    · have h := c8chunk9 (m - 144) (by omega)
                      rw [show 144 + (m - 144) = m from by omega] at h
                      exact h.resolve_left (fun hn => hn hcard)
                    · by_cases h10 : m < 176
                      · have h := c8chunk10 (m - 160) (by omega)
                        rw [show 160 + (m - 160) = m from by omega] at h
                        exact h.resolve_left (fun hn => hn hcard)
                      · by_cases h11 : m < 192
                        · have h := c8chunk11 (m - 176) (by omega)
                          rw [show 176 + (m - 176) = m from by omega] at h
                          exact h.resolve_left (fun hn => hn hcard)
                        · by_cases h12 : m < 208
                          · have h := c8chunk12 (m - 192) (by omega)
                            rw [show 192 + (m - 192) = m from by omega] at h
                            exact h.resolve_left (fun hn => hn hcard)
                          · by_cases h13 : m < 224
                            · have h := c8chunk13 (m - 208) (by omega)
                              rw [show 208 + (m - 208) = m from by omega] at h
                              exact h.resolve_left (fun hn => hn hcard)
                            · by_cases h14 : m < 240
                              · have h := c8chunk14 (m - 224) (by omega)
                                rw [show 224 + (m - 224) = m from by omega] at h
                                exact h.resolve_left (fun hn => hn hcard)
                              · have h := c8chunk15 (m - 240) (by omega)
                                rw [show 240 + (m - 240) = m from by omega] at h
                                exact h.resolve_left (fun hn => hn hcard)

theorem c8_witness :
    4 ≤ (c8select 23).length ∧ reconstruct_column 8 (c8select 23) = .ok c8vals :=
  ⟨by decide, c8_reconstruct_column_roundtrip 23 (by decide) (by decide)⟩
